import Mathlib

/-!
Shallow embedding of `analyze-variance.py`, a benchmark cross-run variance
reporting script.  The script fetches workflow artifacts, groups hyperfine
result records by benchmark name, computes per-benchmark statistics
(average, population standard deviation, coefficient of variation, range),
and renders a table sorted by descending coefficient of variation.

Modelling conventions:
* Python floats are modelled by exact rationals; the standard deviation,
  which is a square root, lives in the reals (`Real.sqrt`).
* Python string formatting `f"{x:.df}"` is modelled by round-half-to-even
  decimal rendering of the exact value.
* Effects are made explicit: functions that print return lists of emitted
  lines, one list for standard output and one for standard error; the world
  of workflow runs and artifacts is a parameter (`env`).
* Record provenance (which run contributed a record to a benchmark group) is
  tracked as a ghost tag alongside the record, so that the grouping
  invariant can be stated; the script itself drops this information.
-/

/- ── decimal formatting (mirrors Python `f"{x:.df}"` on exact values) ───── -/

/-- Round to the nearest integer, ties to even (Python's float rounding). -/
def roundHalfEven (q : ℚ) : ℤ :=
  let f := ⌊q⌋
  if q - f < 1/2 then f
  else if 1/2 < q - f then f + 1
  else if f % 2 = 0 then f else f + 1

/-- Render a scaled integer `n` as a decimal string with `d` digits after
the point, e.g. `renderFixed 2 50 = "0.50"`. -/
def renderFixed (d : Nat) (n : ℤ) : String :=
  let m := n.natAbs
  (if n < 0 then "-" else "") ++ toString (m / 10^d) ++ "." ++
    (String.mk (List.replicate (d - (toString (m % 10^d)).length) '0') ++
      toString (m % 10^d))

/-- Python `f"{q:.df}"` for an exact rational value. -/
def formatFixed (d : Nat) (q : ℚ) : String :=
  renderFixed d (roundHalfEven (q * 10^d))

/-- Real-valued variant of `roundHalfEven`, for quantities containing a
square root. -/
noncomputable def roundHalfEvenR (x : ℝ) : ℤ :=
  let f := ⌊x⌋
  if x - f < 1/2 then f
  else if 1/2 < x - f then f + 1
  else if f % 2 = 0 then f else f + 1

/-- Real-valued variant of `formatFixed`. -/
noncomputable def formatFixedR (d : Nat) (x : ℝ) : String :=
  renderFixed d (roundHalfEvenR (x * 10^d))

/-- Source `format_duration`: auto-scaling duration rendering
(µs under one millisecond, ms under one second, otherwise seconds). -/
def format_duration (seconds : ℚ) : String :=
  let ms := seconds * 1000
  if ms < 1 then formatFixed 2 (ms * 1000) ++ " µs"
  else if ms < 1000 then formatFixed 2 ms ++ " ms"
  else formatFixed 3 (ms / 1000) ++ " s"

/-- Real-valued variant of `format_duration`, used for the standard
deviation (the one irrational quantity in the statistics). -/
noncomputable def format_durationR (seconds : ℝ) : String :=
  let ms := seconds * 1000
  if ms < 1 then formatFixedR 2 (ms * 1000) ++ " µs"
  else if ms < 1000 then formatFixedR 2 ms ++ " ms"
  else formatFixedR 3 (ms / 1000) ++ " s"

/- ── statistics (source function `stats`) ──────────────────────────────── -/

/-- Python `max(values)` for a possibly empty list (`none` models the
`ValueError` raised on an empty list). -/
def listMax? : List ℚ → Option ℚ
  | [] => none
  | x :: xs => some (xs.foldl max x)

/-- Python `min(values)` for a possibly empty list. -/
def listMin? : List ℚ → Option ℚ
  | [] => none
  | x :: xs => some (xs.foldl min x)

/-- Source: `average = sum(values) / n`. -/
def statsAverage (values : List ℚ) : ℚ :=
  values.sum / (values.length : ℚ)

/-- Source: `variance = sum((v - average) ** 2 for v in values) / n`
(population variance, divisor `n`). -/
def statsVariance (values : List ℚ) : ℚ :=
  ((values.map (fun v => (v - statsAverage values)^2)).sum) / (values.length : ℚ)

/-- Source: `std = math.sqrt(variance)`. -/
noncomputable def statsStd (values : List ℚ) : ℝ :=
  Real.sqrt ((statsVariance values : ℚ) : ℝ)

/-- Source: `rng = max(values) - min(values)`. -/
def statsRange (values : List ℚ) : ℚ :=
  (listMax? values).getD 0 - (listMin? values).getD 0

/-- The dictionary returned by `stats`: rendered strings plus the raw
coefficient of variation `_cv_raw` used for sorting. -/
structure StatsDict where
  average : String
  std : String
  cv : String
  range : String
  range_coeff : String
  cv_raw : ℝ

/-- Source function `stats`.  `cv = std / average` is NaN exactly when the
average is zero (modelled by testing the average directly); NaN turns the
rendered fields into `"N/A"` and the raw sort key into `-1`. -/
noncomputable def stats (values : List ℚ) : StatsDict :=
  ⟨format_duration (statsAverage values),
   format_durationR (statsStd values),
   (if statsAverage values = 0 then "N/A"
    else formatFixedR 1 (statsStd values / ((statsAverage values : ℚ) : ℝ) * 100) ++ "%"),
   format_duration (statsRange values),
   (if statsAverage values = 0 then "N/A"
    else formatFixed 1 (statsRange values / statsAverage values * 100) ++ "%"),
   (if statsAverage values = 0 then -1
    else statsStd values / ((statsAverage values : ℚ) : ℝ))⟩

/- ── artifact collection (source `collect_jsons`) ──────────────────────── -/

/-- One parsed hyperfine result (`data["results"][0]`): fields `min`,
`mean` and `times` in seconds. -/
structure ResultRecord where
  min : ℚ
  mean : ℚ
  times : List ℚ
deriving DecidableEq

/-- One workflow artifact: its name and the parsed json files it contains,
as pairs of file stem (the benchmark name) and parsed result. -/
structure Artifact where
  name : String
  files : List (String × ResultRecord)
deriving DecidableEq

/-- Python `name.startswith(pre)`, tested on the character lists of the two
strings. -/
def strStartsWith (s pre : String) : Bool :=
  pre.data.isPrefixOf s.data

/-- Source: `[a for a in artifacts if a["name"].startswith("perfcompare-")]`. -/
def perfArtifacts (arts : List Artifact) : List Artifact :=
  arts.filter (fun a => strStartsWith a.name "perfcompare-")

/-- All json files contained in a run's matching artifacts, in processing
order (artifact by artifact, file by file). -/
def runFiles (arts : List Artifact) : List (String × ResultRecord) :=
  (perfArtifacts arts).flatMap (fun a => a.files)

/-- The benchmark-name stems a run contributes. -/
def runStems (arts : List Artifact) : List String :=
  (runFiles arts).map Prod.fst

/-- Source: `by_bench.setdefault(bench_name, []).append(result)` — append the
record to the group of key `name`, creating the group at the end of the
insertion-ordered map when the key is new.  Records are tagged with the id
of the contributing run (ghost provenance). -/
def addRecord (m : List (String × List (ℕ × ResultRecord))) (name : String)
    (r : ℕ × ResultRecord) : List (String × List (ℕ × ResultRecord)) :=
  if m.any (fun p => p.1 = name) then
    m.map (fun p => if p.1 = name then (p.1, p.2 ++ [r]) else p)
  else m ++ [(name, [r])]

/-- A single quote character, used in diagnostic texts. -/
def squote : String := String.singleton (Char.ofNat 39)

/-- Source line `print(f"  run {run_id}: no perfcompare artifact, skipping")`
— emitted on standard output (`print` without a `file` argument). -/
def noArtifactMsg (rid : ℕ) : String :=
  "  run " ++ toString rid ++ ": no perfcompare artifact, skipping"

/-- Source line `print(f"  run {run_id}: loaded {bench_name} (...)")`. -/
def loadedMsg (rid : ℕ) (name : String) (r : ResultRecord) : String :=
  "  run " ++ toString rid ++ ": loaded " ++ name ++ " (" ++
    toString r.times.length ++ " samples, mean=" ++
    formatFixed 1 (r.mean * 1000) ++ "ms)"

/-- Result of `collect_jsons`: the grouped records (with ghost run tags)
and the lines printed on standard output and standard error. -/
structure CollectResult where
  by_bench : List (String × List (ℕ × ResultRecord))
  out : List String
  err : List String
deriving DecidableEq

/-- Processing of one workflow run inside `collect_jsons`: list the run's
artifacts, keep those whose name starts with `"perfcompare-"`, skip the run
(with a standard-output diagnostic) when none match, otherwise parse every
contained json file into the grouped map. -/
def collectRunStep (env : ℕ → List Artifact) (acc : CollectResult) (rid : ℕ) :
    CollectResult :=
  if (perfArtifacts (env rid)).isEmpty then
    ⟨acc.by_bench, acc.out ++ [noArtifactMsg rid], acc.err⟩
  else
    (runFiles (env rid)).foldl
      (fun a f => ⟨addRecord a.by_bench f.1 (rid, f.2),
                   a.out ++ [loadedMsg rid f.1 f.2], a.err⟩)
      acc

/-- Source function `collect_jsons`: fold `collectRunStep` over the run ids. -/
def collect_jsons (env : ℕ → List Artifact) (run_ids : List ℕ) : CollectResult :=
  run_ids.foldl (collectRunStep env) ⟨[], [], []⟩

/-- The untagged groups, as the Python dict holds them. -/
def benchGroups (c : CollectResult) : List (String × List ResultRecord) :=
  c.by_bench.map (fun p => (p.1, p.2.map Prod.snd))

/- ── analysis passes (source function `analyze`) ───────────────────────── -/

/-- Source line `print(f"  {bench}: only {n} run(s), skipping", file=sys.stderr)`. -/
def skipMsg (bench : String) (n : ℕ) : String :=
  "  " ++ bench ++ ": only " ++ toString n ++ " run(s), skipping"

/-- The rows dictionary of one pass: every benchmark whose group yields at
least two values, paired with its statistics, in group order. -/
noncomputable def analyzeRows (key : ResultRecord → ℚ)
    (bb : List (String × List ResultRecord)) : List (String × StatsDict) :=
  bb.filterMap (fun p =>
    if (p.2.map key).length < 2 then none
    else some (p.1, stats (p.2.map key)))

/-- The skip diagnostics of one pass, in group order. -/
def analyzeSkips (key : ResultRecord → ℚ)
    (bb : List (String × List ResultRecord)) : List String :=
  bb.filterMap (fun p =>
    if (p.2.map key).length < 2 then some (skipMsg p.1 (p.2.map key).length)
    else none)

/-- Source: `sorted(rows.items(), key=lambda x: -x[1]["_cv_raw"])` —
Python's stable ascending sort by the key `-cv_raw`, i.e. descending by
`cv_raw`; insertion sort with a non-strict comparison computes exactly the
stable result. -/
noncomputable def sortRows (rows : List (String × StatsDict)) :
    List (String × StatsDict) :=
  List.insertionSort (fun a b => -a.2.cv_raw ≤ -b.2.cv_raw) rows

/-- Left-pad with spaces to width `w` (Python `f"{s:>w}"`). -/
def padToLeft (w : Nat) (s : String) : String :=
  String.mk (List.replicate (w - s.length) ' ') ++ s

/-- Right-pad with spaces to width `w` (Python `f"{s:<w}"`). -/
def padToRight (w : Nat) (s : String) : String :=
  s ++ String.mk (List.replicate (w - s.length) ' ')

/-- One rendered table row. -/
def renderRow (colw : Nat) (p : String × StatsDict) : String :=
  padToRight colw p.1 ++ "  " ++ padToLeft 12 p.2.average ++ "  " ++
    padToLeft 10 p.2.std ++ "  " ++ padToLeft 7 p.2.cv ++ "  " ++
    padToLeft 12 p.2.range ++ "  " ++ padToLeft 7 p.2.range_coeff

/-- The table header row. -/
def headerRow (colw : Nat) : String :=
  padToRight colw "benchmark" ++ "  " ++ padToLeft 12 "average" ++ "  " ++
    padToLeft 10 "std" ++ "  " ++ padToLeft 7 "cv" ++ "  " ++
    padToLeft 12 "range" ++ "  " ++ padToLeft 7 "range%"

/-- Source: `col_w = max(len(b) for b in rows) + 2`. -/
def colWidth (rows : List (String × StatsDict)) : Nat :=
  (rows.map (fun p => p.1.length)).foldr Nat.max 0 + 2

/-- Source: `len(next(iter(by_bench.values()),'') or [])` — the size of the
first benchmark group, or `0` when there is none. -/
def headGroupSize (bb : List (String × List ResultRecord)) : ℕ :=
  (bb.head?.map (fun p => p.2.length)).getD 0

/-- One pass of `analyze` (label `"MIN"` or `"MEAN"`, selector `min` or
`mean`), returning the lines printed on standard output and on standard
error.  When every benchmark is skipped the pass prints nothing on
standard output (`if not rows: continue`). -/
noncomputable def analyzePass (label : String) (key : ResultRecord → ℚ)
    (bb : List (String × List ResultRecord)) : List String × List String :=
  let rows := analyzeRows key bb
  if rows.isEmpty then ([], analyzeSkips key bb)
  else
    let colw := colWidth rows
    (["\n=== Variance using walltime " ++ label ++ " (" ++
        toString (headGroupSize bb) ++ " runs) ===",
      headerRow colw,
      String.mk (List.replicate (headerRow colw).length '-')] ++
      (sortRows rows).map (renderRow colw),
     analyzeSkips key bb)

/-- Source function `analyze`: the `"MIN"` pass over each record's `min`
field followed by the `"MEAN"` pass over each record's `mean` field. -/
noncomputable def analyze (bb : List (String × List ResultRecord)) :
    List String × List String :=
  let p1 := analyzePass "MIN" (fun r => r.min) bb
  let p2 := analyzePass "MEAN" (fun r => r.mean) bb
  (p1.1 ++ p2.1, p1.2 ++ p2.2)

/- ── run discovery and `main` ──────────────────────────────────────────── -/

/-- One entry of the workflow-runs listing returned by the API. -/
structure WorkflowRun where
  id : ℕ
  head_branch : String
  conclusion : String

/-- The run ids `get_run_ids` discovers for a branch: runs whose head
branch matches and whose conclusion is `"success"`. -/
def discoveredRuns (runsData : List WorkflowRun) (branch : String) : List ℕ :=
  (runsData.filter (fun r => r.head_branch == branch && r.conclusion == "success")).map
    (fun r => r.id)

/-- Diagnostic printed by `get_run_ids` before `sys.exit(1)`. -/
def noRunsMsg (branch : String) : String :=
  "No successful perfcompare runs found on branch " ++ squote ++ branch ++ squote

/-- The run ids the program analyzes: caller-supplied ids when present and
non-empty (Python `args.workflow_run_ids or get_run_ids(...)`), otherwise
the discovered ones. -/
def effectiveRunIds (explicit : Option (List ℕ)) (runsData : List WorkflowRun)
    (branch : String) : List ℕ :=
  if (explicit.getD []).isEmpty then discoveredRuns runsData branch
  else explicit.getD []

/-- Outcome of a whole program execution: the exit status and the two
output streams. -/
structure MainResult where
  exit : ℕ
  out : List String
  err : List String

/-- Tail of `main` after the run ids are known: collect, test for an empty
collection (exit 1 with a diagnostic), then analyze. -/
noncomputable def mainWithRuns (env : ℕ → List Artifact) (run_ids : List ℕ)
    (pre : List String) : MainResult :=
  let c := collect_jsons env run_ids
  let usingMsg := "Using " ++ toString run_ids.length ++ " run(s): " ++
    toString run_ids
  if c.by_bench.isEmpty then
    ⟨1, pre ++ [usingMsg] ++ c.out, c.err ++ ["No results collected."]⟩
  else
    let a := analyze (benchGroups c)
    ⟨0, pre ++ [usingMsg] ++ c.out ++
        ["\nCollected " ++ toString (headGroupSize (benchGroups c)) ++
          " run(s) across " ++ toString c.by_bench.length ++ " benchmark(s)"] ++
        a.1,
     c.err ++ a.2⟩

/-- Source function `main`: choose the run ids (branch discovery exits with
status 1 and a standard-error diagnostic when it finds nothing), then
collect and analyze. -/
noncomputable def mainRun (explicit : Option (List ℕ))
    (runsData : List WorkflowRun) (branch : String)
    (env : ℕ → List Artifact) : MainResult :=
  if (explicit.getD []).isEmpty then
    match discoveredRuns runsData branch with
    | [] => ⟨1, [], [noRunsMsg branch]⟩
    | runs => mainWithRuns env runs
        ["Found " ++ toString runs.length ++ " successful run(s) on " ++
          squote ++ branch ++ squote]
  else mainWithRuns env (explicit.getD []) []

/- ── concrete example data and proof-side map views ────────────────────── -/

/-- Record with all fields equal to one value, used in concrete examples. -/
def exRecord (v : ℚ) : ResultRecord := ⟨v, v, [v]⟩

/-- Concrete benchmark set: "A" has coefficient of variation 5%, "B" has
20%, and "C" has a zero average (not-applicable coefficient). -/
def exBench : List (String × List ResultRecord) :=
  [("A", [exRecord 95, exRecord 105]),
   ("B", [exRecord 80, exRecord 120]),
   ("C", [exRecord 0, exRecord 0])]

/-- Does the insertion-ordered map contain an entry of key `k`? -/
def hasKey (m : List (String × List (ℕ × ResultRecord))) (k : String) : Bool :=
  m.any (fun p => p.1 = k)

/-- The records of the group of key `name` (empty when the key is absent),
read through the first matching entry as a Python dict lookup does. -/
def lookupGrp : List (String × List (ℕ × ResultRecord)) → String →
    List (ℕ × ResultRecord)
  | [], _ => []
  | p :: ps, name => if p.1 = name then p.2 else lookupGrp ps name

/-- Environment for the C9 counterexample: run 7 carries two matching
artifacts that both contain a result file with the same stem "b". -/
def envDup : ℕ → List Artifact := fun rid =>
  if rid = 7 then
    [⟨"perfcompare-a", [("b", exRecord 1)]⟩,
     ⟨"perfcompare-b", [("b", exRecord 2)]⟩]
  else []

/-- Environment with no artifacts at all. -/
def envEmpty : ℕ → List Artifact := fun _ => []

/-- Environment with exactly one well-formed run. -/
def envOne : ℕ → List Artifact := fun rid =>
  if rid = 1 then [⟨"perfcompare-a", [("b", exRecord 1)]⟩] else []

/- ── helper lemmas ─────────────────────────────────────────────────────── -/

theorem roundHalfEven_intCast (n : ℤ) : roundHalfEven (n : ℚ) = n := by
  simp [roundHalfEven]

theorem roundHalfEvenR_intCast (n : ℤ) : roundHalfEvenR (n : ℝ) = n := by
  simp [roundHalfEvenR]

theorem roundHalfEvenR_zero : roundHalfEvenR 0 = 0 := by
  have h := roundHalfEvenR_intCast 0
  simpa using h

theorem formatFixedR_one_zero : formatFixedR 1 0 = "0.0" := by
  rw [formatFixedR, zero_mul, roundHalfEvenR_zero]
  decide

theorem append_percent_ne_NA (s : String) : s ++ "%" ≠ "N/A" := by
  intro h
  have h2 := congrArg String.data h
  rw [String.data_append] at h2
  have h3 := congrArg List.getLast? h2
  rw [List.getLast?_concat] at h3
  simp [String.data] at h3

theorem foldl_max_mem (xs : List ℚ) (x : ℚ) :
    xs.foldl max x = x ∨ xs.foldl max x ∈ xs := by
  induction xs generalizing x with
  | nil => exact Or.inl rfl
  | cons y ys ih =>
    rw [List.foldl_cons]
    rcases ih (max x y) with h | h
    · rcases max_choice x y with hm | hm
      · exact Or.inl (by rw [h, hm])
      · exact Or.inr (by rw [h, hm]; exact List.mem_cons_self y ys)
    · exact Or.inr (List.mem_cons_of_mem y h)

theorem le_foldl_max (xs : List ℚ) (x : ℚ) :
    x ≤ xs.foldl max x ∧ ∀ y ∈ xs, y ≤ xs.foldl max x := by
  induction xs generalizing x with
  | nil => exact ⟨le_refl x, by simp⟩
  | cons y ys ih =>
    obtain ⟨h1, h2⟩ := ih (max x y)
    refine ⟨le_trans (le_max_left x y) h1, ?_⟩
    intro z hz
    rcases List.mem_cons.mp hz with rfl | hz
    · exact le_trans (le_max_right x z) h1
    · exact h2 z hz

theorem foldl_min_mem (xs : List ℚ) (x : ℚ) :
    xs.foldl min x = x ∨ xs.foldl min x ∈ xs := by
  induction xs generalizing x with
  | nil => exact Or.inl rfl
  | cons y ys ih =>
    rw [List.foldl_cons]
    rcases ih (min x y) with h | h
    · rcases min_choice x y with hm | hm
      · exact Or.inl (by rw [h, hm])
      · exact Or.inr (by rw [h, hm]; exact List.mem_cons_self y ys)
    · exact Or.inr (List.mem_cons_of_mem y h)

theorem foldl_min_le (xs : List ℚ) (x : ℚ) :
    xs.foldl min x ≤ x ∧ ∀ y ∈ xs, xs.foldl min x ≤ y := by
  induction xs generalizing x with
  | nil => exact ⟨le_refl x, by simp⟩
  | cons y ys ih =>
    obtain ⟨h1, h2⟩ := ih (min x y)
    refine ⟨le_trans h1 (min_le_left x y), ?_⟩
    intro z hz
    rcases List.mem_cons.mp hz with rfl | hz
    · exact le_trans h1 (min_le_right x z)
    · exact h2 z hz

theorem sum_const_list (v : ℚ) : ∀ l : List ℚ, (∀ x ∈ l, x = v) →
    l.sum = l.length * v := by
  intro l
  induction l with
  | nil => simp
  | cons y ys ih =>
    intro h
    rw [List.sum_cons, List.length_cons, ih (fun x hx => h x (List.mem_cons_of_mem y hx)),
      h y (List.mem_cons_self y ys)]
    push_cast
    ring

/- ── claim theorems: statistics ────────────────────────────────────────── -/

/-- C1: for every list of at least two values the statistics computation
returns average = (sum of the values) / n, standard deviation =
sqrt((sum of squared deviations from the average) / n) (population
variance, divisor n), and range = max(values) - min(values); for the input
{10, 20, 30} the average is 20, the population standard deviation is
approximately 8.165, and the range is 20. -/
theorem stats_formula_spec (values : List ℚ) (h : 2 ≤ values.length) :
    statsAverage values = values.sum / (values.length : ℚ) ∧
    statsStd values =
      Real.sqrt ((((values.map (fun v => (v - statsAverage values)^2)).sum /
        (values.length : ℚ) : ℚ) : ℝ)) ∧
    (∃ M m', listMax? values = some M ∧ listMin? values = some m' ∧
      statsRange values = M - m' ∧ M ∈ values ∧ m' ∈ values ∧
      ∀ x ∈ values, m' ≤ x ∧ x ≤ M) ∧
    statsAverage [10, 20, 30] = 20 ∧
    |statsStd [10, 20, 30] - 8.165| < 1/1000 ∧
    statsRange [10, 20, 30] = 20 := by
  refine ⟨rfl, rfl, ?_, ?_, ?_, ?_⟩
  · match values, h with
    | x :: xs, _ =>
      refine ⟨xs.foldl max x, xs.foldl min x, rfl, rfl, rfl, ?_, ?_, ?_⟩
      · rcases foldl_max_mem xs x with hm | hm
        · rw [hm]; exact List.mem_cons_self x xs
        · exact List.mem_cons_of_mem x hm
      · rcases foldl_min_mem xs x with hm | hm
        · rw [hm]; exact List.mem_cons_self x xs
        · exact List.mem_cons_of_mem x hm
      · intro y hy
        rcases List.mem_cons.mp hy with rfl | hy
        · exact ⟨(foldl_min_le xs y).1, (le_foldl_max xs y).1⟩
        · exact ⟨(foldl_min_le xs x).2 y hy, (le_foldl_max xs x).2 y hy⟩
  · norm_num [statsAverage]
  · have hv : statsVariance [10, 20, 30] = 200/3 := by
      norm_num [statsVariance, statsAverage]
    rw [statsStd, hv]
    have hc : (((200/3 : ℚ)) : ℝ) = 200/3 := by norm_num
    rw [hc, abs_sub_lt_iff]
    constructor
    · rw [sub_lt_iff_lt_add]
      have : (1/1000 : ℝ) + 8.165 = 8.166 := by norm_num
      rw [this, Real.sqrt_lt' (by norm_num)]
      norm_num
    · rw [sub_lt_comm]
      have : (8.165 : ℝ) - 1/1000 = 8.164 := by norm_num
      rw [this, Real.lt_sqrt (by positivity)]
      norm_num
  · norm_num [statsRange, listMax?, listMin?, max_def, min_def]

/-- C1 witness: the theorem instantiated at the concrete input {10, 20, 30}. -/
theorem stats_formula_spec_witness :
    statsAverage [10, 20, 30] = 20 ∧
    |statsStd [10, 20, 30] - 8.165| < 1/1000 ∧
    statsRange [10, 20, 30] = 20 :=
  ⟨(stats_formula_spec [10, 20, 30] (by norm_num)).2.2.2.1,
   (stats_formula_spec [10, 20, 30] (by norm_num)).2.2.2.2.1,
   (stats_formula_spec [10, 20, 30] (by norm_num)).2.2.2.2.2⟩

/-- C2 counterexample: for the non-empty all-equal list [0, 0] the rendered
coefficient of variation is "N/A", not "0.0%" as the claim states. -/
theorem stats_allzero_cv_not_zero_percent :
    (stats [(0:ℚ), 0]).cv = "N/A" ∧ (stats [(0:ℚ), 0]).cv ≠ "0.0%" := by
  have h : statsAverage [(0:ℚ), 0] = 0 := by norm_num [statsAverage]
  have hcv : (stats [(0:ℚ), 0]).cv = "N/A" := by
    show (if statsAverage [(0:ℚ), 0] = 0 then "N/A" else _) = "N/A"
    rw [if_pos h]
  exact ⟨hcv, by rw [hcv]; decide⟩

/-- C2 (amended): for every non-empty list whose elements all equal one
positive common value, the standard deviation is 0 and the rendered
coefficient of variation is "0.0%"; when the common value is zero the
average is zero and the coefficient is rendered "N/A" instead. -/
theorem stats_const_spec (values : List ℚ) (v : ℚ) (hne : values ≠ [])
    (hv : ∀ x ∈ values, x = v) (hpos : 0 < v) :
    statsStd values = 0 ∧ (stats values).cv = "0.0%" := by
  have hlen : (values.length : ℚ) ≠ 0 := by
    simpa [List.length_eq_zero] using hne
  have havg : statsAverage values = v := by
    rw [statsAverage, sum_const_list v values hv, mul_comm,
      mul_div_assoc, div_self hlen, mul_one]
  have hvar : statsVariance values = 0 := by
    rw [statsVariance, List.sum_eq_zero, zero_div]
    intro y hy
    obtain ⟨x, hx, rfl⟩ := List.mem_map.mp hy
    rw [hv x hx, havg, sub_self]
    ring
  have hstd : statsStd values = 0 := by
    rw [statsStd, hvar]
    simp
  refine ⟨hstd, ?_⟩
  have hane : statsAverage values ≠ 0 := by rw [havg]; exact ne_of_gt hpos
  show (if statsAverage values = 0 then "N/A" else
    formatFixedR 1 (statsStd values / ((statsAverage values : ℚ) : ℝ) * 100) ++ "%") = "0.0%"
  rw [if_neg hane, hstd, zero_div, zero_mul, formatFixedR_one_zero]
  decide

/-- C2 witness: the amended theorem instantiated at the list [5, 5]. -/
theorem stats_const_spec_witness :
    statsStd [(5:ℚ), 5] = 0 ∧ (stats [(5:ℚ), 5]).cv = "0.0%" :=
  stats_const_spec [5, 5] 5 (by decide) (by decide) (by norm_num)

/-- C3: for every list of at least two values, the statistics computation
reports the coefficient of variation as std/average and the range
coefficient as range/average when the average is nonzero, and reports both
as "N/A" exactly when the average is exactly zero; in the "N/A" case the
raw coefficient used for sorting is the sentinel -1. -/
theorem stats_cv_na_spec (values : List ℚ) (h : 2 ≤ values.length) :
    (statsAverage values ≠ 0 →
      (stats values).cv_raw = statsStd values / ((statsAverage values : ℚ) : ℝ) ∧
      (stats values).cv =
        formatFixedR 1 (statsStd values / ((statsAverage values : ℚ) : ℝ) * 100) ++ "%" ∧
      (stats values).range_coeff =
        formatFixed 1 (statsRange values / statsAverage values * 100) ++ "%") ∧
    (((stats values).cv = "N/A" ∧ (stats values).range_coeff = "N/A") ↔
      statsAverage values = 0) ∧
    (statsAverage values = 0 → (stats values).cv_raw = -1) := by
  by_cases ha : statsAverage values = 0
  · refine ⟨fun hc => absurd ha hc, ?_, fun _ => ?_⟩
    · constructor
      · intro _
        exact ha
      · intro _
        constructor
        · show (if statsAverage values = 0 then "N/A" else _) = "N/A"
          rw [if_pos ha]
        · show (if statsAverage values = 0 then "N/A" else _) = "N/A"
          rw [if_pos ha]
    · show (if statsAverage values = 0 then (-1:ℝ) else _) = -1
      rw [if_pos ha]
  · refine ⟨fun _ => ⟨?_, ?_, ?_⟩, ?_, fun hc => absurd hc ha⟩
    · show (if statsAverage values = 0 then (-1:ℝ) else _) = _
      rw [if_neg ha]
    · show (if statsAverage values = 0 then "N/A" else _) = _
      rw [if_neg ha]
    · show (if statsAverage values = 0 then "N/A" else _) = _
      rw [if_neg ha]
    · constructor
      · intro ⟨hcv, _⟩
        rw [show (stats values).cv = (if statsAverage values = 0 then "N/A" else
          formatFixedR 1 (statsStd values / ((statsAverage values : ℚ) : ℝ) * 100) ++ "%")
          from rfl, if_neg ha] at hcv
        exact absurd hcv (append_percent_ne_NA _)
      · intro hc
        exact absurd hc ha

/-- C3 witness: the theorem instantiated at the input {10, 20, 30}, whose
average 20 is nonzero, so neither rendered coefficient is "N/A". -/
theorem stats_cv_na_spec_witness :
    ((stats [(10:ℚ), 20, 30]).cv = "N/A" ∧
      (stats [(10:ℚ), 20, 30]).range_coeff = "N/A") ↔
    statsAverage [(10:ℚ), 20, 30] = 0 :=
  (stats_cv_na_spec [10, 20, 30] (by norm_num)).2.1

/-- C5: the duration formatter renders values under 1 millisecond in
microseconds with 2 decimal places, values of at least 1 millisecond but
under 1 second in milliseconds with 2 decimal places, and all other values
in seconds with 3 decimal places; 0.0000005 s renders as "0.50 µs",
0.0015 s as "1.50 ms", and 1.5 s as "1.500 s". -/
theorem format_duration_spec (s : ℚ) :
    (s * 1000 < 1 → format_duration s = formatFixed 2 (s * 1000 * 1000) ++ " µs") ∧
    (1 ≤ s * 1000 → s * 1000 < 1000 →
      format_duration s = formatFixed 2 (s * 1000) ++ " ms") ∧
    (1000 ≤ s * 1000 → format_duration s = formatFixed 3 (s * 1000 / 1000) ++ " s") ∧
    format_duration 0.0000005 = "0.50 µs" ∧
    format_duration 0.0015 = "1.50 ms" ∧
    format_duration 1.5 = "1.500 s" := by
  refine ⟨?_, ?_, ?_, ?_, ?_, ?_⟩
  · intro h1
    show (if s * 1000 < 1 then _ else _) = _
    rw [if_pos h1]
  · intro h1 h2
    show (if s * 1000 < 1 then _ else _) = _
    rw [if_neg (not_lt.mpr h1), if_pos h2]
  · intro h1
    show (if s * 1000 < 1 then _ else _) = _
    rw [if_neg (by linarith), if_neg (not_lt.mpr h1)]
  · show (if (0.0000005:ℚ) * 1000 < 1 then formatFixed 2 (0.0000005 * 1000 * 1000) ++ " µs"
      else _) = _
    rw [if_pos (by norm_num)]
    have h : (0.0000005:ℚ) * 1000 * 1000 * 10^2 = ((50:ℤ) : ℚ) := by norm_num
    rw [formatFixed, h, roundHalfEven_intCast]
    decide
  · show (if (0.0015:ℚ) * 1000 < 1 then _ else
      if (0.0015:ℚ) * 1000 < 1000 then formatFixed 2 (0.0015 * 1000) ++ " ms" else _) = _
    rw [if_neg (by norm_num), if_pos (by norm_num)]
    have h : (0.0015:ℚ) * 1000 * 10^2 = ((150:ℤ) : ℚ) := by norm_num
    rw [formatFixed, h, roundHalfEven_intCast]
    decide
  · show (if (1.5:ℚ) * 1000 < 1 then _ else
      if (1.5:ℚ) * 1000 < 1000 then _ else formatFixed 3 (1.5 * 1000 / 1000) ++ " s") = _
    rw [if_neg (by norm_num), if_neg (by norm_num)]
    have h : (1.5:ℚ) * 1000 / 1000 * 10^3 = ((1500:ℤ) : ℚ) := by norm_num
    rw [formatFixed, h, roundHalfEven_intCast]
    decide

/-- C5 witness: the theorem instantiated at 0.0015 seconds, which is at
least one millisecond and under one second. -/
theorem format_duration_spec_witness :
    format_duration 0.0015 = formatFixed 2 (0.0015 * 1000) ++ " ms" :=
  (format_duration_spec 0.0015).2.1 (by norm_num) (by norm_num)

/- ── claim theorems: sorting of the rendered table ─────────────────────── -/

theorem sortRows_perm (rows : List (String × StatsDict)) :
    (sortRows rows).Perm rows :=
  List.perm_insertionSort _ rows

theorem sortRows_sorted (rows : List (String × StatsDict)) :
    (sortRows rows).Sorted (fun a b => b.2.cv_raw ≤ a.2.cv_raw) := by
  haveI h1 : IsTotal (String × StatsDict) (fun a b => -a.2.cv_raw ≤ -b.2.cv_raw) :=
    ⟨fun a b => le_total _ _⟩
  haveI h2 : IsTrans (String × StatsDict) (fun a b => -a.2.cv_raw ≤ -b.2.cv_raw) :=
    ⟨fun a b c hab hbc => le_trans hab hbc⟩
  have hs := List.sorted_insertionSort
    (fun a b : String × StatsDict => -a.2.cv_raw ≤ -b.2.cv_raw) rows
  exact List.Pairwise.imp (fun hab => neg_le_neg_iff.mp hab) hs

theorem sortRows_na_last (rows : List (String × StatsDict))
    (hnn : ∀ x ∈ rows, x.2.cv_raw = -1 ∨ 0 ≤ x.2.cv_raw) :
    (sortRows rows).Pairwise (fun a b => a.2.cv_raw = -1 → b.2.cv_raw = -1) := by
  have hs := sortRows_sorted rows
  refine List.Pairwise.imp_of_mem ?_ hs
  intro a b _ hb hab hneg
  have hb' : b ∈ rows := (sortRows_perm rows).subset hb
  rcases hnn b hb' with h1 | h1
  · exact h1
  · exfalso
    rw [hneg] at hab
    linarith

theorem cv_raw_95_105 : (stats [(95:ℚ), 105]).cv_raw = 1/20 := by
  have havg : statsAverage [(95:ℚ), 105] = 100 := by norm_num [statsAverage]
  have hvar : statsVariance [(95:ℚ), 105] = 25 := by
    norm_num [statsVariance, statsAverage]
  show (if statsAverage [(95:ℚ), 105] = 0 then (-1:ℝ) else
    statsStd [(95:ℚ), 105] / ((statsAverage [(95:ℚ), 105] : ℚ) : ℝ)) = 1/20
  rw [if_neg (by rw [havg]; norm_num), statsStd, hvar, havg]
  rw [show ((25:ℚ):ℝ) = 5^2 by norm_num, Real.sqrt_sq (by norm_num : (0:ℝ) ≤ 5)]
  norm_num

theorem cv_raw_80_120 : (stats [(80:ℚ), 120]).cv_raw = 1/5 := by
  have havg : statsAverage [(80:ℚ), 120] = 100 := by norm_num [statsAverage]
  have hvar : statsVariance [(80:ℚ), 120] = 400 := by
    norm_num [statsVariance, statsAverage]
  show (if statsAverage [(80:ℚ), 120] = 0 then (-1:ℝ) else
    statsStd [(80:ℚ), 120] / ((statsAverage [(80:ℚ), 120] : ℚ) : ℝ)) = 1/5
  rw [if_neg (by rw [havg]; norm_num), statsStd, hvar, havg]
  rw [show ((400:ℚ):ℝ) = 20^2 by norm_num, Real.sqrt_sq (by norm_num : (0:ℝ) ≤ 20)]
  norm_num

theorem cv_raw_0_0 : (stats [(0:ℚ), 0]).cv_raw = -1 := by
  show (if statsAverage [(0:ℚ), 0] = 0 then (-1:ℝ) else _) = -1
  rw [if_pos (by norm_num [statsAverage])]

theorem sortRows_example :
    (sortRows (analyzeRows (fun r => r.min) exBench)).map Prod.fst =
      ["B", "A", "C"] := by
  have hrows : analyzeRows (fun r => r.min) exBench =
      [("A", stats [95, 105]), ("B", stats [80, 120]), ("C", stats [0, 0])] := rfl
  rw [hrows, sortRows]
  norm_num [List.insertionSort, List.orderedInsert, cv_raw_0_0, cv_raw_80_120,
    cv_raw_95_105]

/-- C4: within one pass the rendered table lists benchmarks sorted by
descending coefficient of variation (the sorted rows are a permutation of
the computed rows, pairwise descending in the raw coefficient, and once a
sentinel -1 row appears only sentinel rows follow, provided every
coefficient is -1 or nonnegative as is the case for duration data); the
table body renders exactly the sorted rows in order; and for three
benchmarks with coefficients 5%, 20% and not-applicable the rendered order
is 20%, then 5%, then not-applicable. -/
theorem analyze_sort_spec (rows : List (String × StatsDict))
    (hnn : ∀ x ∈ rows, x.2.cv_raw = -1 ∨ 0 ≤ x.2.cv_raw) :
    (sortRows rows).Perm rows ∧
    (sortRows rows).Sorted (fun a b => b.2.cv_raw ≤ a.2.cv_raw) ∧
    (sortRows rows).Pairwise (fun a b => a.2.cv_raw = -1 → b.2.cv_raw = -1) ∧
    (∀ label key bb, (analyzeRows key bb).isEmpty = false →
      (analyzePass label key bb).1.drop 3 =
        (sortRows (analyzeRows key bb)).map (renderRow (colWidth (analyzeRows key bb)))) ∧
    (sortRows (analyzeRows (fun r => r.min) exBench)).map Prod.fst =
      ["B", "A", "C"] := by
  refine ⟨sortRows_perm rows, sortRows_sorted rows, sortRows_na_last rows hnn,
    ?_, sortRows_example⟩
  intro label key bb hne
  simp only [analyzePass, hne, Bool.false_eq_true, if_false, List.drop]
  rfl

/-- C4 witness: the theorem instantiated at the empty row list, whose
nonnegativity hypothesis holds vacuously. -/
theorem analyze_sort_spec_witness :
    (sortRows []).Perm ([] : List (String × StatsDict)) ∧
    (sortRows ([] : List (String × StatsDict))).Sorted
      (fun a b => b.2.cv_raw ≤ a.2.cv_raw) ∧
    (sortRows ([] : List (String × StatsDict))).Pairwise
      (fun a b => a.2.cv_raw = -1 → b.2.cv_raw = -1) ∧
    (∀ label key bb, (analyzeRows key bb).isEmpty = false →
      (analyzePass label key bb).1.drop 3 =
        (sortRows (analyzeRows key bb)).map (renderRow (colWidth (analyzeRows key bb)))) ∧
    (sortRows (analyzeRows (fun r => r.min) exBench)).map Prod.fst =
      ["B", "A", "C"] :=
  analyze_sort_spec [] (by simp)

/- ── claim theorems: skipping and safety in `analyze` ──────────────────── -/

theorem analyzePass_snd (label : String) (key : ResultRecord → ℚ)
    (bb : List (String × List ResultRecord)) :
    (analyzePass label key bb).2 = analyzeSkips key bb := by
  simp only [analyzePass]
  rw [apply_ite Prod.snd]
  simp

theorem listMax?_isSome (l : List ℚ) (h : l ≠ []) : (listMax? l).isSome := by
  match l, h with
  | x :: xs, _ => rfl

theorem listMin?_isSome (l : List ℚ) (h : l ≠ []) : (listMin? l).isSome := by
  match l, h with
  | x :: xs, _ => rfl

/-- C6: in every analysis pass, a benchmark whose group yields fewer than
two values contributes no row (the rows are exactly the groups with at
least two values, so the skip is not fatal to the others), its skip
diagnostic is emitted on the pass's standard-error stream, and if every
benchmark is skipped this way the pass prints nothing on standard output. -/
theorem analyze_skip_spec (label : String) (key : ResultRecord → ℚ)
    (bb : List (String × List ResultRecord)) :
    analyzeRows key bb =
      (bb.filter (fun p => 2 ≤ p.2.length)).map
        (fun p => (p.1, stats (p.2.map key))) ∧
    (∀ p ∈ bb, p.2.length < 2 →
      skipMsg p.1 p.2.length ∈ (analyzePass label key bb).2) ∧
    ((∀ p ∈ bb, p.2.length < 2) → (analyzePass label key bb).1 = []) := by
  have hrows : analyzeRows key bb =
      (bb.filter (fun p => 2 ≤ p.2.length)).map
        (fun p => (p.1, stats (p.2.map key))) := by
    induction bb with
    | nil => rfl
    | cons p ps ih =>
      simp only [analyzeRows, List.filterMap_cons, List.filter_cons] at ih ⊢
      by_cases h2 : (p.2.map key).length < 2
      · have hq : ¬ (2 ≤ p.2.length) := by
          rw [List.length_map] at h2
          omega
        rw [if_pos h2, decide_eq_false hq]
        simp only [Bool.false_eq_true, if_false]
        exact ih
      · have hq : 2 ≤ p.2.length := by
          rw [List.length_map] at h2
          omega
        rw [if_neg h2, decide_eq_true hq]
        simp only [if_true, List.map_cons]
        rw [ih]
  refine ⟨hrows, ?_, ?_⟩
  · intro p hp h2
    rw [analyzePass_snd]
    refine List.mem_filterMap.mpr ⟨p, hp, ?_⟩
    have h2' : (p.2.map key).length < 2 := by
      rw [List.length_map]
      exact h2
    rw [if_pos h2', List.length_map]
  · intro hall
    have hnil : bb.filter (fun p => 2 ≤ p.2.length) = [] := by
      rw [List.filter_eq_nil_iff]
      intro p hp
      simp only [decide_eq_true_eq, not_le]
      exact hall p hp
    have hempty : (analyzeRows key bb).isEmpty = true := by
      rw [hrows, hnil]
      rfl
    simp only [analyzePass, hempty, if_true]

/-- C6 witness: a pass over one benchmark with a single value emits the
skip diagnostic and prints nothing on standard output. -/
theorem analyze_skip_spec_witness :
    skipMsg "X" 1 ∈ (analyzePass "MIN" (fun r => r.min) [("X", [exRecord 1])]).2 ∧
    (analyzePass "MIN" (fun r => r.min) [("X", [exRecord 1])]).1 = [] :=
  ⟨by
    have h := (analyze_skip_spec "MIN" (fun r => r.min) [("X", [exRecord 1])]).2.1
      ("X", [exRecord 1]) (List.mem_singleton.mpr rfl) (by norm_num)
    exact h,
   (analyze_skip_spec "MIN" (fun r => r.min) [("X", [exRecord 1])]).2.2
    (by
      intro p hp
      rw [List.mem_singleton.mp hp]
      norm_num)⟩

/-- C10: the statistics computation is only ever invoked on value lists of
length at least two (the caller filters shorter lists out first), so the
division by the list length, the division-by-average guard and the max/min
of the list are all well-defined: the length is nonzero as a rational and
max/min are defined (`isSome`). -/
theorem stats_call_safety (key : ResultRecord → ℚ)
    (bb : List (String × List ResultRecord)) (bench : String) (s : StatsDict)
    (h : (bench, s) ∈ analyzeRows key bb) :
    ∃ values : List ℚ, s = stats values ∧ 2 ≤ values.length ∧
      (values.length : ℚ) ≠ 0 ∧ (listMax? values).isSome ∧
      (listMin? values).isSome := by
  obtain ⟨p, hp, hf⟩ := List.mem_filterMap.mp h
  by_cases h2 : (p.2.map key).length < 2
  · rw [if_pos h2] at hf
    cases hf
  · rw [if_neg h2] at hf
    simp only [Option.some.injEq, Prod.mk.injEq] at hf
    obtain ⟨-, rfl⟩ := hf
    have hlen : 2 ≤ (p.2.map key).length := not_lt.mp h2
    have hne : p.2.map key ≠ [] := by
      intro hnil
      rw [hnil] at hlen
      simp at hlen
    exact ⟨p.2.map key, rfl, hlen,
      Nat.cast_ne_zero.mpr (by omega),
      listMax?_isSome _ hne, listMin?_isSome _ hne⟩

/-- C10 witness: the safety facts hold for the single row produced by a
benchmark with two values. -/
theorem stats_call_safety_witness :
    ∃ values : List ℚ, stats [(1:ℚ), 2] = stats values ∧ 2 ≤ values.length ∧
      (values.length : ℚ) ≠ 0 ∧ (listMax? values).isSome ∧
      (listMin? values).isSome :=
  stats_call_safety (fun r => r.min) [("X", [exRecord 1, exRecord 2])] "X"
    (stats [1, 2])
    (by
      rw [show analyzeRows (fun r => r.min) [("X", [exRecord 1, exRecord 2])] =
        [("X", stats [1, 2])] from rfl]
      exact List.mem_singleton.mpr rfl)

/- ── claim theorems: grouping invariant of `collect_jsons` ─────────────── -/


theorem lookupGrp_not_hasKey (m : List (String × List (ℕ × ResultRecord)))
    (nm : String) (h : hasKey m nm = false) : lookupGrp m nm = [] := by
  induction m with
  | nil => rfl
  | cons q ps ih =>
    simp only [hasKey, List.any_cons, Bool.or_eq_false_iff, decide_eq_false_iff_not] at h
    rw [lookupGrp, if_neg h.1]
    exact ih (by simp only [hasKey]; exact h.2)

theorem lookupGrp_map_add (m : List (String × List (ℕ × ResultRecord)))
    (name nm : String) (r : ℕ × ResultRecord) :
    lookupGrp (m.map (fun p => if p.1 = name then (p.1, p.2 ++ [r]) else p)) nm =
      if nm = name ∧ hasKey m nm = true then lookupGrp m nm ++ [r]
      else lookupGrp m nm := by
  induction m with
  | nil => simp [hasKey, lookupGrp]
  | cons q ps ih =>
    have hfst : ((if q.1 = name then (q.1, q.2 ++ [r]) else q).1) = q.1 := by
      by_cases hn : q.1 = name
      · rw [if_pos hn]
      · rw [if_neg hn]
    rw [List.map_cons, lookupGrp, hfst]
    by_cases hq : q.1 = nm
    · rw [if_pos hq]
      have hk : hasKey (q :: ps) nm = true := by
        simp only [hasKey, List.any_cons, Bool.or_eq_true, decide_eq_true_eq]
        exact Or.inl hq
      by_cases hnm : nm = name
      · rw [if_pos (show q.1 = name by rw [hq, hnm])]
        rw [if_pos (show nm = name ∧ hasKey (q :: ps) nm = true from ⟨hnm, hk⟩)]
        rw [lookupGrp, if_pos hq]
      · rw [if_neg (show ¬ q.1 = name by rw [hq]; exact hnm)]
        rw [if_neg (show ¬ (nm = name ∧ hasKey (q :: ps) nm = true) from fun hc => hnm hc.1)]
        rw [lookupGrp, if_pos hq]
    · rw [if_neg hq, ih]
      have hk : hasKey (q :: ps) nm = hasKey ps nm := by
        simp only [hasKey, List.any_cons, decide_eq_false hq, Bool.false_or]
      rw [hk, lookupGrp, if_neg hq]

theorem lookupGrp_append (m m2 : List (String × List (ℕ × ResultRecord)))
    (nm : String) :
    lookupGrp (m ++ m2) nm =
      if hasKey m nm = true then lookupGrp m nm else lookupGrp m2 nm := by
  induction m with
  | nil => simp [hasKey, lookupGrp]
  | cons q ps ih =>
    rw [List.cons_append, lookupGrp]
    by_cases hq : q.1 = nm
    · have hk : hasKey (q :: ps) nm = true := by
        simp only [hasKey, List.any_cons, Bool.or_eq_true, decide_eq_true_eq]
        exact Or.inl hq
      rw [if_pos hq, if_pos hk, lookupGrp, if_pos hq]
    · have hk : hasKey (q :: ps) nm = hasKey ps nm := by
        simp only [hasKey, List.any_cons, decide_eq_false hq, Bool.false_or]
      rw [if_neg hq, ih, hk, lookupGrp, if_neg hq]

theorem lookupGrp_addRecord (m : List (String × List (ℕ × ResultRecord)))
    (name nm : String) (r : ℕ × ResultRecord) :
    lookupGrp (addRecord m name r) nm =
      if nm = name then lookupGrp m nm ++ [r] else lookupGrp m nm := by
  by_cases hany : m.any (fun p => p.1 = name) = true
  · rw [addRecord, if_pos hany, lookupGrp_map_add]
    by_cases hnm : nm = name
    · rw [if_pos (show nm = name ∧ hasKey m nm = true from
        ⟨hnm, by rw [hasKey, hnm]; exact hany⟩)]
      rw [if_pos hnm]
    · rw [if_neg (show ¬ (nm = name ∧ hasKey m nm = true) from fun hc => hnm hc.1)]
      rw [if_neg hnm]
  · rw [addRecord, if_neg hany, lookupGrp_append]
    have hkm : hasKey m name = false := by
      rw [hasKey]
      exact Bool.eq_false_iff.mpr hany
    by_cases hnm : nm = name
    · subst hnm
      rw [if_neg (show ¬ hasKey m nm = true by rw [hkm]; exact Bool.false_ne_true)]
      rw [lookupGrp, if_pos rfl, if_pos rfl, lookupGrp_not_hasKey m nm hkm]
      rfl
    · rw [if_neg hnm]
      by_cases hk : hasKey m nm = true
      · rw [if_pos hk]
      · rw [if_neg hk, lookupGrp, if_neg (fun he => hnm he.symm), lookupGrp,
          lookupGrp_not_hasKey m nm (by simpa using hk)]

theorem filesFold_by_bench (rid : ℕ) (files : List (String × ResultRecord))
    (acc : CollectResult) :
    (files.foldl (fun a f => ⟨addRecord a.by_bench f.1 (rid, f.2),
       a.out ++ [loadedMsg rid f.1 f.2], a.err⟩) acc).by_bench =
    files.foldl (fun mm f => addRecord mm f.1 (rid, f.2)) acc.by_bench := by
  induction files generalizing acc with
  | nil => rfl
  | cons f fs ih => rw [List.foldl_cons, List.foldl_cons, ih]

theorem filesFold_tags (rid : ℕ) (files : List (String × ResultRecord))
    (hnd : (files.map Prod.fst).Nodup)
    (m : List (String × List (ℕ × ResultRecord))) (nm : String) :
    (lookupGrp (files.foldl (fun mm f => addRecord mm f.1 (rid, f.2)) m) nm).map
      Prod.fst =
    (lookupGrp m nm).map Prod.fst ++
      (if nm ∈ files.map Prod.fst then [rid] else []) := by
  induction files generalizing m with
  | nil => simp
  | cons f fs ih =>
    rw [List.map_cons] at hnd
    obtain ⟨hf, hfs⟩ := List.nodup_cons.mp hnd
    rw [List.foldl_cons, ih hfs, lookupGrp_addRecord]
    by_cases hq : nm = f.1
    · rw [if_pos hq, List.map_append]
      have hnin : nm ∉ fs.map Prod.fst := by
        rw [hq]
        exact hf
      rw [if_neg hnin, List.append_nil]
      have hmem : nm ∈ (f :: fs).map Prod.fst := by
        rw [List.map_cons, hq]
        exact List.mem_cons_self f.1 (fs.map Prod.fst)
      rw [if_pos hmem]
      rfl
    · rw [if_neg hq]
      have hcond : (nm ∈ (f :: fs).map Prod.fst) = (nm ∈ fs.map Prod.fst) := by
        rw [List.map_cons]
        simp [List.mem_cons, hq]
      simp only [hcond]

theorem collectRunStep_tags (env : ℕ → List Artifact) (rid : ℕ)
    (acc : CollectResult) (nm : String) (hnd : (runStems (env rid)).Nodup) :
    (lookupGrp (collectRunStep env acc rid).by_bench nm).map Prod.fst =
    (lookupGrp acc.by_bench nm).map Prod.fst ++
      (if nm ∈ runStems (env rid) then [rid] else []) := by
  rw [runStems] at hnd ⊢
  rw [collectRunStep]
  by_cases he : (perfArtifacts (env rid)).isEmpty = true
  · rw [if_pos he]
    have hemp : runFiles (env rid) = [] := by
      rw [runFiles, List.isEmpty_iff.mp he]
      rfl
    rw [hemp]
    simp
  · rw [if_neg he, filesFold_by_bench, filesFold_tags rid _ hnd]

theorem collect_fold_tags (env : ℕ → List Artifact) (l : List ℕ)
    (acc : CollectResult) (nm : String)
    (hnd : ∀ rid ∈ l, (runStems (env rid)).Nodup) :
    (lookupGrp (l.foldl (collectRunStep env) acc).by_bench nm).map Prod.fst =
    (lookupGrp acc.by_bench nm).map Prod.fst ++
      l.filter (fun rid => decide (nm ∈ runStems (env rid))) := by
  induction l generalizing acc with
  | nil => simp
  | cons rid tl ih =>
    rw [List.foldl_cons, ih _ (fun x hx => hnd x (List.mem_cons_of_mem rid hx)),
      collectRunStep_tags env rid acc nm (hnd rid (List.mem_cons_self rid tl)),
      List.filter_cons]
    by_cases hm : nm ∈ runStems (env rid)
    · rw [if_pos hm, decide_eq_true hm, if_pos rfl, List.append_assoc]
      rfl
    · rw [if_neg hm, List.append_nil, decide_eq_false hm,
        if_neg Bool.false_ne_true]

theorem addRecord_keys (m : List (String × List (ℕ × ResultRecord)))
    (name : String) (r : ℕ × ResultRecord) :
    (addRecord m name r).map Prod.fst =
      if m.any (fun p => p.1 = name) = true then m.map Prod.fst
      else m.map Prod.fst ++ [name] := by
  by_cases hany : m.any (fun p => p.1 = name) = true
  · rw [addRecord, if_pos hany, if_pos hany, List.map_map]
    congr 1
    funext p
    show Prod.fst (if p.1 = name then (p.1, p.2 ++ [r]) else p) = p.1
    by_cases hp : p.1 = name
    · rw [if_pos hp]
    · rw [if_neg hp]
  · rw [addRecord, if_neg hany, if_neg hany, List.map_append]
    rfl

theorem addRecord_keys_nodup (m : List (String × List (ℕ × ResultRecord)))
    (name : String) (r : ℕ × ResultRecord) (h : (m.map Prod.fst).Nodup) :
    ((addRecord m name r).map Prod.fst).Nodup := by
  rw [addRecord_keys]
  by_cases hany : m.any (fun p => p.1 = name) = true
  · rw [if_pos hany]
    exact h
  · rw [if_neg hany]
    have hn : name ∉ m.map Prod.fst := by
      intro hmem
      obtain ⟨p, hp, hpe⟩ := List.mem_map.mp hmem
      exact hany (List.any_eq_true.mpr ⟨p, hp, decide_eq_true hpe⟩)
    simp [List.nodup_append, h, hn]

theorem filesFold_keys_nodup (rid : ℕ) (files : List (String × ResultRecord))
    (m : List (String × List (ℕ × ResultRecord)))
    (h : (m.map Prod.fst).Nodup) :
    (((files.foldl (fun mm f => addRecord mm f.1 (rid, f.2)) m)).map
      Prod.fst).Nodup := by
  induction files generalizing m with
  | nil => exact h
  | cons f fs ih => exact ih _ (addRecord_keys_nodup _ _ _ h)

theorem collect_keys_nodup (env : ℕ → List Artifact) (l : List ℕ)
    (acc : CollectResult) (h : (acc.by_bench.map Prod.fst).Nodup) :
    (((l.foldl (collectRunStep env) acc).by_bench).map Prod.fst).Nodup := by
  induction l generalizing acc with
  | nil => exact h
  | cons rid tl ih =>
    refine ih _ ?_
    rw [collectRunStep]
    by_cases he : (perfArtifacts (env rid)).isEmpty = true
    · rw [if_pos he]
      exact h
    · rw [if_neg he, filesFold_by_bench]
      exact filesFold_keys_nodup _ _ _ h

theorem mem_eq_lookupGrp (m : List (String × List (ℕ × ResultRecord)))
    (hk : (m.map Prod.fst).Nodup) (p : String × List (ℕ × ResultRecord))
    (hp : p ∈ m) : p.2 = lookupGrp m p.1 := by
  induction m with
  | nil => cases hp
  | cons q ps ih =>
    rw [List.map_cons, List.nodup_cons] at hk
    rcases List.mem_cons.mp hp with rfl | hp'
    · rw [lookupGrp, if_pos rfl]
    · have hne : ¬ q.1 = p.1 := by
        intro he
        exact hk.1 (he ▸ List.mem_map.mpr ⟨p, hp', rfl⟩)
      rw [lookupGrp, if_neg hne]
      exact ih hk.2 hp'

/-- C9 counterexample: a single run (id 7) with two matching artifacts that
contain the same benchmark file stem contributes two records to that
benchmark's group, so the group does not consist of records from distinct
runs. -/
theorem collect_same_run_duplicate :
    ∃ p ∈ (collect_jsons envDup [7]).by_bench, ¬ (p.2.map Prod.fst).Nodup := by
  refine ⟨("b", [(7, exRecord 1), (7, exRecord 2)]), ?_, ?_⟩
  · rw [show (collect_jsons envDup [7]).by_bench =
      [("b", [(7, exRecord 1), (7, exRecord 2)])] from rfl]
    exact List.mem_singleton.mpr rfl
  · simp

/-- C9 (amended): provided the analyzed run ids are pairwise distinct and
no benchmark file stem occurs twice among one run's matching artifacts,
every benchmark group built by artifact collection consists of records
contributed by pairwise distinct workflow runs. -/
theorem collect_distinct_runs_spec (env : ℕ → List Artifact)
    (run_ids : List ℕ) (h1 : run_ids.Nodup)
    (h2 : ∀ rid ∈ run_ids, (runStems (env rid)).Nodup) :
    ∀ p ∈ (collect_jsons env run_ids).by_bench, (p.2.map Prod.fst).Nodup := by
  intro p hp
  have hk : (((collect_jsons env run_ids).by_bench).map Prod.fst).Nodup := by
    rw [collect_jsons]
    exact collect_keys_nodup env run_ids ⟨[], [], []⟩ (by simp)
  have hl := mem_eq_lookupGrp _ hk p hp
  rw [hl, collect_jsons,
    collect_fold_tags env run_ids ⟨[], [], []⟩ p.1 h2]
  simp only [lookupGrp, List.map_nil, List.nil_append]
  exact List.Nodup.filter _ h1

/-- C9 witness: the amended invariant applied to the single group built
from one well-formed run; its record tags are pairwise distinct. -/
theorem collect_distinct_runs_spec_witness :
    ((("b", [(1, exRecord 1)]) : String × List (ℕ × ResultRecord)).2.map
      Prod.fst).Nodup :=
  collect_distinct_runs_spec envOne [1] (by decide)
    (by
      intro rid hrid
      rw [List.mem_singleton.mp hrid]
      decide)
    ("b", [(1, exRecord 1)])
    (by
      rw [show (collect_jsons envOne [1]).by_bench =
        [("b", [(1, exRecord 1)])] from rfl]
      exact List.mem_singleton.mpr rfl)

/- ── claim theorems: diagnostic streams ────────────────────────────────── -/

theorem filesFold_err (rid : ℕ) (files : List (String × ResultRecord))
    (acc : CollectResult) :
    (files.foldl (fun a f => ⟨addRecord a.by_bench f.1 (rid, f.2),
       a.out ++ [loadedMsg rid f.1 f.2], a.err⟩) acc).err = acc.err := by
  induction files generalizing acc with
  | nil => rfl
  | cons f fs ih => rw [List.foldl_cons, ih]

theorem collectRunStep_err (env : ℕ → List Artifact) (acc : CollectResult)
    (rid : ℕ) : (collectRunStep env acc rid).err = acc.err := by
  rw [collectRunStep]
  by_cases he : (perfArtifacts (env rid)).isEmpty = true
  · rw [if_pos he]
  · rw [if_neg he, filesFold_err]

theorem collect_fold_err (env : ℕ → List Artifact) (l : List ℕ)
    (acc : CollectResult) :
    (l.foldl (collectRunStep env) acc).err = acc.err := by
  induction l generalizing acc with
  | nil => rfl
  | cons rid tl ih => rw [List.foldl_cons, ih, collectRunStep_err]

theorem filesFold_out_mono (rid : ℕ) (files : List (String × ResultRecord))
    (acc : CollectResult) (x : String) (hx : x ∈ acc.out) :
    x ∈ (files.foldl (fun a f => ⟨addRecord a.by_bench f.1 (rid, f.2),
       a.out ++ [loadedMsg rid f.1 f.2], a.err⟩) acc).out := by
  induction files generalizing acc with
  | nil => exact hx
  | cons f fs ih =>
    rw [List.foldl_cons]
    exact ih _ (List.mem_append_left _ hx)

theorem collectRunStep_out_mono (env : ℕ → List Artifact) (acc : CollectResult)
    (rid : ℕ) (x : String) (hx : x ∈ acc.out) :
    x ∈ (collectRunStep env acc rid).out := by
  rw [collectRunStep]
  by_cases he : (perfArtifacts (env rid)).isEmpty = true
  · rw [if_pos he]
    exact List.mem_append_left _ hx
  · rw [if_neg he]
    exact filesFold_out_mono rid _ acc x hx

theorem collect_fold_out_mono (env : ℕ → List Artifact) (l : List ℕ)
    (acc : CollectResult) (x : String) (hx : x ∈ acc.out) :
    x ∈ (l.foldl (collectRunStep env) acc).out := by
  induction l generalizing acc with
  | nil => exact hx
  | cons rid tl ih =>
    rw [List.foldl_cons]
    exact ih _ (collectRunStep_out_mono env acc rid x hx)

theorem collect_skip_out (env : ℕ → List Artifact) (l : List ℕ)
    (acc : CollectResult) (rid : ℕ) (hrid : rid ∈ l)
    (hempty : perfArtifacts (env rid) = []) :
    noArtifactMsg rid ∈ (l.foldl (collectRunStep env) acc).out := by
  induction l generalizing acc with
  | nil => cases hrid
  | cons r tl ih =>
    rw [List.foldl_cons]
    rcases List.mem_cons.mp hrid with rfl | hr
    · apply collect_fold_out_mono
      rw [collectRunStep, if_pos (by rw [hempty]; rfl)]
      exact List.mem_append_right _ (List.mem_singleton.mpr rfl)
    · exact ih _ hr

/-- C8 counterexample: for a run with zero matching artifacts the skip
diagnostic is printed on standard output while the standard-error stream
stays empty, contradicting the claim that this recoverable skip is logged
to the diagnostic stream. -/
theorem no_artifact_skip_on_stdout :
    (collect_jsons envEmpty [1]).err = [] ∧
    noArtifactMsg 1 ∈ (collect_jsons envEmpty [1]).out ∧
    noArtifactMsg 1 ∉ (collect_jsons envEmpty [1]).err := by
  refine ⟨rfl, ?_, ?_⟩
  · rw [show (collect_jsons envEmpty [1]).out = [noArtifactMsg 1] from rfl]
    exact List.mem_singleton.mpr rfl
  · rw [show (collect_jsons envEmpty [1]).err = ([] : List String) from rfl]
    exact List.not_mem_nil _

/-- C8 (amended): artifact collection never writes to standard error — the
zero-matching-artifacts skip is printed on standard output — while the
fewer-than-two-values benchmark skip is logged on the pass's standard-error
stream. -/
theorem diagnostics_streams_spec (env : ℕ → List Artifact)
    (run_ids : List ℕ) :
    (collect_jsons env run_ids).err = [] ∧
    (∀ rid ∈ run_ids, perfArtifacts (env rid) = [] →
      noArtifactMsg rid ∈ (collect_jsons env run_ids).out) ∧
    (∀ (label : String) (key : ResultRecord → ℚ)
      (bb : List (String × List ResultRecord)) (p : String × List ResultRecord),
      p ∈ bb → p.2.length < 2 →
      skipMsg p.1 p.2.length ∈ (analyzePass label key bb).2) := by
  refine ⟨?_, ?_, ?_⟩
  · rw [collect_jsons, collect_fold_err]
  · intro rid hrid hempty
    rw [collect_jsons]
    exact collect_skip_out env run_ids _ rid hrid hempty
  · intro label key bb p hp h2
    rw [analyzePass_snd]
    refine List.mem_filterMap.mpr ⟨p, hp, ?_⟩
    have h2' : (p.2.map key).length < 2 := by
      rw [List.length_map]
      exact h2
    rw [if_pos h2', List.length_map]

/-- C8 witness: the amended statement instantiated at a concrete
environment and a concrete one-value benchmark. -/
theorem diagnostics_streams_spec_witness :
    (collect_jsons envEmpty [1]).err = [] ∧
    noArtifactMsg 1 ∈ (collect_jsons envEmpty [1]).out ∧
    skipMsg "X" 1 ∈ (analyzePass "MEAN" (fun r => r.mean) [("X", [exRecord 1])]).2 :=
  ⟨(diagnostics_streams_spec envEmpty [1]).1,
   (diagnostics_streams_spec envEmpty [1]).2.1 1 (List.mem_singleton.mpr rfl) rfl,
   (diagnostics_streams_spec envEmpty [1]).2.2 "MEAN" (fun r => r.mean)
     [("X", [exRecord 1])] ("X", [exRecord 1]) (List.mem_singleton.mpr rfl)
     (by norm_num)⟩

/- ── claim theorems: exit status of `main` ─────────────────────────────── -/

theorem mainWithRuns_spec (env : ℕ → List Artifact) (run_ids : List ℕ)
    (pre : List String) :
    ((mainWithRuns env run_ids pre).exit =
      if (collect_jsons env run_ids).by_bench = [] then 1 else 0) ∧
    ((collect_jsons env run_ids).by_bench = [] →
      "No results collected." ∈ (mainWithRuns env run_ids pre).err) := by
  constructor
  · by_cases hc : (collect_jsons env run_ids).by_bench = []
    · rw [if_pos hc]
      simp only [mainWithRuns]
      rw [if_pos (show (collect_jsons env run_ids).by_bench.isEmpty = true by
        rw [hc]; rfl)]
    · rw [if_neg hc]
      simp only [mainWithRuns]
      rw [if_neg (show ¬ (collect_jsons env run_ids).by_bench.isEmpty = true by
        simpa [List.isEmpty_iff] using hc)]
  · intro hc
    simp only [mainWithRuns]
    rw [if_pos (show (collect_jsons env run_ids).by_bench.isEmpty = true by
      rw [hc]; rfl)]
    exact List.mem_append_right _ (List.mem_singleton.mpr rfl)

/-- C7: the program terminates with a nonzero exit status exactly when
branch-based discovery finds no successful workflow runs or when artifact
collection produces no benchmark results at all; in the first case the
no-runs diagnostic and in the second case the no-results diagnostic is
emitted on standard error; in every other case the exit status is zero.
The model is a total function, so no other abnormal termination occurs. -/
theorem main_exit_spec (explicit : Option (List ℕ))
    (runsData : List WorkflowRun) (branch : String)
    (env : ℕ → List Artifact) :
    ((mainRun explicit runsData branch env).exit ≠ 0 ↔
      (explicit.getD [] = [] ∧ discoveredRuns runsData branch = []) ∨
      (collect_jsons env (effectiveRunIds explicit runsData branch)).by_bench = []) ∧
    ((mainRun explicit runsData branch env).exit = 0 ↔
      ¬ ((explicit.getD [] = [] ∧ discoveredRuns runsData branch = []) ∨
        (collect_jsons env (effectiveRunIds explicit runsData branch)).by_bench = [])) ∧
    (explicit.getD [] = [] → discoveredRuns runsData branch = [] →
      noRunsMsg branch ∈ (mainRun explicit runsData branch env).err) ∧
    (¬ (explicit.getD [] = [] ∧ discoveredRuns runsData branch = []) →
      (collect_jsons env (effectiveRunIds explicit runsData branch)).by_bench = [] →
      "No results collected." ∈ (mainRun explicit runsData branch env).err) := by
  by_cases he : explicit.getD [] = []
  · have hie : (explicit.getD []).isEmpty = true := by
      rw [he]
      rfl
    have heff : effectiveRunIds explicit runsData branch =
        discoveredRuns runsData branch := by
      rw [effectiveRunIds, if_pos hie]
    rcases hd : discoveredRuns runsData branch with - | ⟨r, rs⟩
    · have hmain : mainRun explicit runsData branch env =
          ⟨1, [], [noRunsMsg branch]⟩ := by
        rw [mainRun, if_pos hie, hd]
      refine ⟨?_, ?_, ?_, ?_⟩
      · rw [hmain]
        exact iff_of_true one_ne_zero (Or.inl ⟨he, rfl⟩)
      · rw [hmain]
        exact iff_of_false one_ne_zero (fun hn => hn (Or.inl ⟨he, rfl⟩))
      · intro _ _
        rw [hmain]
        exact List.mem_singleton.mpr rfl
      · intro hnc _
        exact absurd ⟨he, rfl⟩ hnc
    · have hmain : mainRun explicit runsData branch env =
          mainWithRuns env (r :: rs)
            ["Found " ++ toString (r :: rs).length ++
              " successful run(s) on " ++ squote ++ branch ++ squote] := by
        rw [mainRun, if_pos hie, hd]
      have hfst : ¬ (explicit.getD [] = [] ∧ (r :: rs : List ℕ) = []) :=
        fun hcon => List.cons_ne_nil r rs hcon.2
      obtain ⟨hex, herr⟩ := mainWithRuns_spec env (r :: rs)
        ["Found " ++ toString (r :: rs).length ++
          " successful run(s) on " ++ squote ++ branch ++ squote]
      rw [heff, hd]
      by_cases hc : (collect_jsons env (r :: rs)).by_bench = []
      · refine ⟨?_, ?_, ?_, ?_⟩
        · rw [hmain, hex, if_pos hc]
          exact iff_of_true one_ne_zero (Or.inr hc)
        · rw [hmain, hex, if_pos hc]
          exact iff_of_false one_ne_zero (fun hn => hn (Or.inr hc))
        · intro _ hd'
          exact absurd hd' (List.cons_ne_nil r rs)
        · intro _ _
          rw [hmain]
          exact herr hc
      · refine ⟨?_, ?_, ?_, ?_⟩
        · rw [hmain, hex, if_neg hc]
          constructor
          · intro hz
            exact absurd rfl hz
          · intro hor
            rcases hor with h1 | h2
            · exact absurd h1 hfst
            · exact absurd h2 hc
        · rw [hmain, hex, if_neg hc]
          constructor
          · intro _ hor
            rcases hor with h1 | h2
            · exact absurd h1 hfst
            · exact absurd h2 hc
          · intro _
            rfl
        · intro _ hd'
          exact absurd hd' (List.cons_ne_nil r rs)
        · intro _ h2
          exact absurd h2 hc
  · have hie : ¬ (explicit.getD []).isEmpty = true := by
      simpa [List.isEmpty_iff] using he
    have heff : effectiveRunIds explicit runsData branch = explicit.getD [] := by
      rw [effectiveRunIds, if_neg hie]
    have hmain : mainRun explicit runsData branch env =
        mainWithRuns env (explicit.getD []) [] := by
      rw [mainRun, if_neg hie]
    have hfst : ¬ (explicit.getD [] = [] ∧ discoveredRuns runsData branch = []) := by
      intro hcon
      exact he hcon.1
    obtain ⟨hex, herr⟩ := mainWithRuns_spec env (explicit.getD []) []
    rw [heff]
    by_cases hc : (collect_jsons env (explicit.getD [])).by_bench = []
    · refine ⟨?_, ?_, ?_, ?_⟩
      · rw [hmain, hex, if_pos hc]
        exact iff_of_true one_ne_zero (Or.inr hc)
      · rw [hmain, hex, if_pos hc]
        exact iff_of_false one_ne_zero (fun hn => hn (Or.inr hc))
      · intro he' _
        exact absurd he' he
      · intro _ _
        rw [hmain]
        exact herr hc
    · refine ⟨?_, ?_, ?_, ?_⟩
      · rw [hmain, hex, if_neg hc]
        constructor
        · intro hz
          exact absurd rfl hz
        · intro hor
          rcases hor with h1 | h2
          · exact absurd h1 hfst
          · exact absurd h2 hc
      · rw [hmain, hex, if_neg hc]
        constructor
        · intro _ hor
          rcases hor with h1 | h2
          · exact absurd h1 hfst
          · exact absurd h2 hc
        · intro _
          rfl
      · intro he' _
        exact absurd he' he
      · intro _ h2
        exact absurd h2 hc

/-- C7 witness: with no explicit ids and an empty run listing, discovery
finds nothing; the theorem yields the nonzero exit and the standard-error
diagnostic for that concrete input. -/
theorem main_exit_spec_witness :
    ((mainRun none [] "main" envEmpty).exit ≠ 0 ↔
      ((none : Option (List ℕ)).getD [] = [] ∧ discoveredRuns [] "main" = []) ∨
      (collect_jsons envEmpty (effectiveRunIds none [] "main")).by_bench = []) ∧
    noRunsMsg "main" ∈ (mainRun none [] "main" envEmpty).err :=
  ⟨(main_exit_spec none [] "main" envEmpty).1,
   (main_exit_spec none [] "main" envEmpty).2.2.1 rfl rfl⟩
